import Mathlib

/-!
# mesosphere/daggers: container customizers and svu options

A shallow embedding of `daggers/containers/customizer.go` and
`dagger/svu/options.go`.

The Dagger SDK values the Go code manipulates (`*dagger.Container`,
`*dagger.Directory`, `*dagger.File`, `*dagger.Secret`) are lazy query
builders.  They are embedded by what they denote:

* a container is the record of its plain environment variables, cache mounts,
  secret variables and pending execution steps;
* a directory or file is the result its query evaluates to (a file tree, a
  file, or the engine's error);
* a call that takes a `context.Context` is a query sent to the engine: it
  fails with the context's error when the context is cancelled or the engine
  is unreachable.
-/

namespace Daggers

/-! ## Errors and the context -/

/-- Errors returned by the customizers and by engine queries. -/
inductive Error where
  /-- The context was cancelled or the engine could not be reached. -/
  | cancelled (reason : String)
  /-- The engine found no file or directory at the path. -/
  | notFound (path : List String)
  /-- The engine could not write to the path. -/
  | notWritable (path : List String)
  /-- No tracked file existed when a cache key was derived. -/
  | missingInputs
  /-- A tracked file exists and could not be read. -/
  | readError (path : List String)
  /-- The client could not allocate or look up the cache volume of the key. -/
  | volumeResolution (key : String)
  /-- Value of `fmt.Errorf("failed to get cache files: %w", err)`. -/
  | failedToGetCacheFiles (cause : Error)
  /-- Value of `fmt.Errorf("missing cache files: %v", cacheFiles)`. -/
  | missingCacheFiles (cacheFiles : List String)
  /-- A customizer of a pipeline failed, with its position and cause. -/
  | customization (index : Nat) (cause : Error)
  deriving DecidableEq, Repr

/-- The `context.Context` handed to engine queries: `err` is set when the
context is cancelled or the engine session is down, and every query made with
it then fails with that error. -/
structure Context where
  err : Option Error
  deriving DecidableEq, Repr

/-- A live context. -/
def Context.background : Context := ⟨none⟩

/-! ## Containers -/

/-- Lazy handle on a secret: it names the host variable the engine reads when a
step runs, and does not hold the value. -/
structure Secret where
  hostVariable : String
  deriving DecidableEq, Repr

/-- Lazy handle `Host().EnvVariable(name)`. -/
structure HostVariable where
  name : String
  deriving DecidableEq, Repr

/-- The call `HostVariable.Secret()`. -/
def HostVariable.Secret (v : HostVariable) : Secret := ⟨v.name⟩

/-- A cache volume, identified by its key. -/
structure CacheVolume where
  key : String
  deriving DecidableEq, Repr

/-- Record denoted by a `*dagger.Container`: plain environment variables,
cache mounts, secret variables and pending execution steps, each in the order
they were added. -/
structure Container where
  env : List (String × String)
  mounts : List (String × CacheVolume)
  secrets : List (String × Secret)
  execs : List (List String)
  deriving DecidableEq, Repr

/-- The call `Container.WithEnvVariable(name, value)`: drops every entry for
`name` and adds the new one at the end. -/
def Container.WithEnvVariable (c : Container) (name value : String) : Container :=
  { c with env := c.env.filter (fun e => e.1 ≠ name) ++ [(name, value)] }

/-- The call `Container.WithMountedCache(path, cache)`: a mount at the same
path is replaced. -/
def Container.WithMountedCache (c : Container) (path : String) (cache : CacheVolume) :
    Container :=
  { c with mounts := c.mounts.filter (fun m => m.1 ≠ path) ++ [(path, cache)] }

/-- The call `Container.WithSecretVariable(name, secret)`. -/
def Container.WithSecretVariable (c : Container) (name : String) (secret : Secret) :
    Container :=
  { c with secrets := c.secrets ++ [(name, secret)] }

/-- The call `Container.WithExec(args)`: records one more execution step. -/
def Container.WithExec (c : Container) (args : List String) : Container :=
  { c with execs := c.execs ++ [args] }

/-- Value of a plain environment variable in the record, if it is set. -/
def Container.envLookup (c : Container) (name : String) : Option String :=
  (c.env.find? (fun e => e.1 = name)).map (fun e => e.2)

/-- Cache volume mounted at a path, if any. -/
def Container.mountLookup (c : Container) (path : String) : Option CacheVolume :=
  (c.mounts.find? (fun m => m.1 = path)).map (fun m => m.2)

/-- The query `Container.EnvVariable(ctx, name)`: the value of the variable,
the empty string when it is not set. -/
def Container.EnvVariable (c : Container) (ctx : Context) (name : String) :
    Except Error String :=
  match ctx.err with
  | some e => .error e
  | none => .ok ((c.envLookup name).getD "")

/-! ## Directories and files -/

/-- Splits a character list at every occurrence of `sep`. -/
def splitChars (sep : Char) : List Char → List (List Char)
  | [] => [[]]
  | c :: cs =>
    if c = sep then [] :: splitChars sep cs
    else
      match splitChars sep cs with
      | [] => [[c]]
      | w :: ws => (c :: w) :: ws

/-- Resolves path components against the root the way `path.Clean` does: empty
and `.` components are dropped, `..` removes the component before it. `acc` is
the resolved part, innermost first. -/
def cleanComponents : List String → List String → List String
  | acc, [] => acc.reverse
  | acc, s :: rest =>
    if s = "" ∨ s = "." then cleanComponents acc rest
    else if s = ".." then cleanComponents acc.tail rest
    else cleanComponents (s :: acc) rest

/-- Components of a slash-separated path, relative to the root of a directory. -/
def cleanPath (p : String) : List String :=
  cleanComponents [] ((splitChars '/' p.data).map String.mk)

/-- Content of a file held by the engine: its bytes, and whether they can be
read. A file may exist and not be readable (permissions, I/O). -/
structure FileContent where
  bytes : String
  readable : Bool
  deriving DecidableEq, Repr

/-- File tree held by the engine: the files of a directory, each under its
component path, with its content. Directories are the proper beginnings of
file paths, and the root. -/
abbrev Tree := List (List String × FileContent)

/-- Whether `p` is a directory of the tree. -/
def Tree.isDir (t : Tree) (p : List String) : Bool :=
  p = [] || t.any (fun e => p.isPrefixOf e.1 && p.length < e.1.length)

/-- The files below directory `p`, with paths relative to it. -/
def Tree.subtree (t : Tree) (p : List String) : Tree :=
  t.filterMap (fun e =>
    if p.isPrefixOf e.1 && p.length < e.1.length then some (e.1.drop p.length, e.2)
    else none)

/-- Where a file named `base` lands when copied to `p`: inside `p` when `p` is a
directory, at `p` itself otherwise. -/
def Tree.copyTarget (t : Tree) (p : List String) (base : String) : List String :=
  if t.isDir p then p ++ [base] else p

/-- Names of the entries at the root of the tree, each once. -/
def Tree.topNames (t : Tree) : List String :=
  (t.filterMap (fun e => e.1.head?)).dedup

/-- A file as the engine resolves it: its base name and content. -/
abbrev FileData := String × FileContent

deriving instance DecidableEq for Except

/-- What a `*dagger.Directory` query evaluates to. -/
structure DirectoryQuery where
  eval : Except Error Tree
  deriving DecidableEq, Repr

/-- What a `*dagger.File` query evaluates to. -/
structure FileQuery where
  eval : Except Error FileData
  deriving DecidableEq, Repr

/-- The call `Directory.Directory(path)`: the sub-directory at `path`. -/
def DirectoryQuery.Directory (d : DirectoryQuery) (path : String) : DirectoryQuery :=
  match d.eval with
  | .error e => ⟨.error e⟩
  | .ok t =>
    let p := cleanPath path
    if t.isDir p then ⟨.ok (t.subtree p)⟩ else ⟨.error (.notFound p)⟩

/-- The call `Directory.File(path)`: the file at `path`. -/
def DirectoryQuery.File (d : DirectoryQuery) (path : String) : FileQuery :=
  match d.eval with
  | .error e => ⟨.error e⟩
  | .ok t =>
    let p := cleanPath path
    match p.getLast?, t.lookup p with
    | some base, some content => ⟨.ok (base, content)⟩
    | _, _ => ⟨.error (.notFound p)⟩

/-- The query `File.ID(ctx)`: succeeds exactly when the engine can resolve the
file. -/
def FileQuery.ID (f : FileQuery) (ctx : Context) : Except Error FileData :=
  match ctx.err with
  | some e => .error e
  | none => f.eval

/-- The call `Directory.WithFile(path, source)`: copies the file to `path`; as
with `cp`, a `path` that is an existing directory receives the file under its
base name. Nothing is copied over a directory or below a file. -/
def DirectoryQuery.WithFile (d : DirectoryQuery) (path : String) (source : FileQuery) :
    DirectoryQuery :=
  match d.eval, source.eval with
  | .error e, _ => ⟨.error e⟩
  | .ok _, .error e => ⟨.error e⟩
  | .ok t, .ok (base, content) =>
    let target := t.copyTarget (cleanPath path) base
    if t.isDir target || t.any (fun e => e.1.isPrefixOf target && e.1.length < target.length)
    then ⟨.error (.notWritable target)⟩
    else ⟨.ok ((target, content) :: t.filter (fun e => e.1 ≠ target))⟩

/-- The query `Directory.Entries(ctx)`: the names at the root of the directory. -/
def DirectoryQuery.Entries (d : DirectoryQuery) (ctx : Context) : Except Error (List String) :=
  match ctx.err with
  | some e => .error e
  | none =>
    match d.eval with
    | .error e => .error e
    | .ok t => .ok t.topNames

/-! ## The runtime -/

/-- Host side of the build client: the environment of the host process. -/
structure Host where
  environment : List (String × String)
  deriving DecidableEq, Repr

/-- The call `Host.EnvVariable(name)`: a handle, the value is not read. -/
def Host.EnvVariable (_h : Host) (name : String) : HostVariable := ⟨name⟩

/-- The build client handle: the host, and the cache volume keys the client
cannot allocate or look up. -/
structure Client where
  host : Host
  volumeUnavailable : String → Bool

/-- The call `Client.Host()`. -/
def Client.Host (cl : Client) : Host := cl.host

/-- The call `Client.Directory()`: an empty directory. -/
def Client.Directory (_cl : Client) : DirectoryQuery := ⟨.ok []⟩

/-- Modelled from the spec: the request to the client's volume namespace for
the volume of a key. It fails with `volumeResolution` when the client cannot
allocate or look up the volume; otherwise the volume of that key is
returned. -/
def Client.CacheVolume (cl : Client) (key : String) : Except Error CacheVolume :=
  if cl.volumeUnavailable key then .error (.volumeResolution key) else .ok ⟨key⟩

/-- Modelled from the spec: `daggers.Runtime`, whose declaration is not among
the source files. It holds the build client and the working-directory root and
is not changed after construction. -/
structure Runtime where
  Client : Client
  Workdir : DirectoryQuery

/-- A customizer: `func(*daggers.Runtime, *dagger.Container) (*dagger.Container, error)`. -/
abbrev ContainerCustomizerFn := Runtime → Container → Except Error Container

/-- Modelled from the spec: `ApplyCustomizations`, which is not among the
source files. Customizers are applied left to right, the output of one being
the input of the next; the first failure stops the pipeline and is returned
wrapped with the position of the customizer that failed. `index` is the
position of the head of the list. -/
def ApplyCustomizationsFrom (runtime : Runtime) :
    Nat → Container → List ContainerCustomizerFn → Except Error Container
  | _, c, [] => .ok c
  | index, c, fn :: fns =>
    match fn runtime c with
    | .error err => .error (.customization index err)
    | .ok c' => ApplyCustomizationsFrom runtime (index + 1) c' fns

/-- Modelled from the spec: `ApplyCustomizations(runtime, c, fns...)`. -/
def ApplyCustomizations (runtime : Runtime) (c : Container)
    (fns : List ContainerCustomizerFn) : Except Error Container :=
  ApplyCustomizationsFrom runtime 0 c fns

/-- Modelled from the spec: the Hasher's digest, in hexadecimal, of the
(path, content) pairs it is given. The hash function is not among the source
files and is a parameter. -/
abbrev Digest := List (String × String) → String

/-- Modelled from the spec: the Hasher's read of the named files of `dir`, in
the order given. A file that does not exist is left out; a file that exists
and cannot be read fails the read with `readError`; the result is the list of
(name, content) pairs of the files read. -/
def readInputs (dir : DirectoryQuery) : List String → Except Error (List (String × String))
  | [] => .ok []
  | name :: rest =>
    match (dir.File name).eval with
    | .error _ => readInputs dir rest
    | .ok (_, content) =>
      if content.readable then
        match readInputs dir rest with
        | .error e => .error e
        | .ok inputs => .ok ((name, content.bytes) :: inputs)
      else .error (.readError (cleanPath name))

/-- Modelled from the spec: `NewCacheVolumeWithFileHashKeys`, which is not among
the source files. The named files of `dir` are read in the order given
(`readInputs`); with no file read the call fails with `missingInputs`. The
cache key is the prefix followed by the digest of what was read, and the
volume of that key is requested from the client, whose failure
(`volumeResolution`) is returned unchanged. -/
def NewCacheVolumeWithFileHashKeys (digest : Digest) (ctx : Context) (client : Client)
    (keyPrefix : String) (dir : DirectoryQuery) (files : List String) :
    Except Error CacheVolume :=
  match ctx.err with
  | some e => .error e
  | none =>
    match dir.eval with
    | .error e => .error e
    | .ok _ =>
      match readInputs dir files with
      | .error e => .error e
      | .ok inputs =>
        if inputs = [] then .error .missingInputs
        else client.CacheVolume (keyPrefix ++ digest inputs)

/-! ## Customizers (`daggers/containers/customizer.go`) -/

/-- Go `AppendToPATH`: appends the given path to the PATH environment variable. -/
def AppendToPATH (ctx : Context) (path : String) : ContainerCustomizerFn :=
  fun _ c =>
    match c.EnvVariable ctx "PATH" with
    | .error err => .error err
    | .ok existingPATH => .ok (c.WithEnvVariable "PATH" (existingPATH ++ ":" ++ path))

/-- Go `getGoCacheDir`. -/
def getGoCacheDir (ctx : Context) (runtime : Runtime) (path : String)
    (cacheFiles : List String) : Except Error DirectoryQuery :=
  -- Default to the current working directory if no path is given.
  let path := if path = "" then "." else path
  let cacheDir := cacheFiles.foldl
    (fun cacheDir cacheFile =>
      let file := (runtime.Workdir.Directory path).File cacheFile
      match file.ID ctx with
      | .ok _ => cacheDir.WithFile path file
      | .error _ => cacheDir)
    runtime.Client.Directory
  -- List the files in the cache directory and determine if they exist.
  match cacheDir.Entries ctx with
  | .error err => .error (.failedToGetCacheFiles err)
  | .ok entries =>
    if entries.length ≠ cacheFiles.length then .error (.missingCacheFiles cacheFiles)
    else .ok cacheDir

/-- The body of the loop of `getGoCacheDir`, for one cache file: the file is
added to the cache directory when its `ID` query succeeds. -/
def cacheDirStep (ctx : Context) (runtime : Runtime) (path : String)
    (cacheDir : DirectoryQuery) (cacheFile : String) : DirectoryQuery :=
  let file := (runtime.Workdir.Directory path).File cacheFile
  match file.ID ctx with
  | .ok _ => cacheDir.WithFile path file
  | .error _ => cacheDir

/-- Go `WithMountedGoCache`. -/
def WithMountedGoCache (digest : Digest) (ctx : Context) (path : String) :
    ContainerCustomizerFn :=
  fun runtime c =>
    let client := runtime.Client
    let cacheFiles := ["go.mod", "go.sum"]
    match getGoCacheDir ctx runtime path cacheFiles with
    | .error err => .error err
    | .ok cacheDir =>
      -- Configure go to use the cache volume for the go build cache.
      match NewCacheVolumeWithFileHashKeys digest ctx client "go-build-" cacheDir cacheFiles with
      | .error err => .error err
      | .ok buildCache =>
        let c := (c.WithEnvVariable "GOCACHE" "/go/build-cache").WithMountedCache
          "/go/build-cache" buildCache
        -- Configure go to use the cache volume for the go mod cache.
        match NewCacheVolumeWithFileHashKeys digest ctx client "go-mod-" cacheDir cacheFiles with
        | .error err => .error err
        | .ok modCache =>
          .ok ((c.WithEnvVariable "GOMODCACHE" "/go/mod-cache").WithMountedCache
            "/go/mod-cache" modCache)

/-- Go `InstallGo`. -/
def InstallGo (ctx : Context) (version : String) : ContainerCustomizerFn :=
  fun runtime c =>
    -- If no version is given, default to 1.19.3.
    let version := if version = "" then "1.19.3" else version
    let url := "https://golang.org/dl/go" ++ version ++ ".linux-amd64.tar.gz"
    let cmd := "curl --location --fail --silent --show-error " ++ url ++
      " | tar -C /usr/local -xz"
    let c := c.WithExec ["sh", "-ec", cmd]
    AppendToPATH ctx "/usr/local/go/bin" runtime c

/-- Go `DownloadFile`. -/
def DownloadFile (url destFile : String) : ContainerCustomizerFn :=
  fun _ c =>
    let cmd := "curl --location --fail --silent --show-error " ++ url ++ " --output " ++
      destFile
    .ok (c.WithExec ["sh", "-ec", cmd])

/-- Go `DownloadExecutableFile`. -/
def DownloadExecutableFile (url destFile : String) : ContainerCustomizerFn :=
  fun runtime c =>
    match DownloadFile url destFile runtime c with
    | .error err => .error err
    | .ok c => .ok (c.WithExec ["chmod", "755", destFile])

/-- Go `InstallGithubCli`. -/
def InstallGithubCli (version : String) (extensions : List String) : ContainerCustomizerFn :=
  fun runtime c =>
    -- If no version is given, default to 2.20.2.
    let version := if version = "" then "2.20.2" else version
    let url := "https://github.com/cli/cli/releases/download/v" ++ version ++ "/gh_" ++
      version ++ "_linux_amd64.tar.gz"
    let dest := "/tmp/gh_linux_amd64.tar.gz"
    let extractDir := "/tmp"
    let cliSourcePath := "/tmp/gh_" ++ version ++ "_linux_amd64/bin/gh"
    let cliTargetPath := "/usr/local/bin/gh"
    match ApplyCustomizations runtime c [DownloadFile url dest] with
    | .error err => .error err
    | .ok c =>
      let token := (runtime.Client.Host.EnvVariable "GITHUB_TOKEN").Secret
      let c := (((c.WithSecretVariable "GITHUB_TOKEN" token).WithExec
        ["tar", "-xf", dest, "-C", extractDir]).WithExec
        ["mv", cliSourcePath, cliTargetPath]).WithExec ["rm", "-rf", "/tmp/*"]
      .ok (extensions.foldl
        (fun c extension => c.WithExec ["gh", "extension", "install", extension]) c)

/-! ## Specification-side definitions -/

/-- Go's `DownloadExecutableFile` as the specification words it: `DownloadFile`
followed by marking the destination executable. -/
def DownloadExecutableFileSpec (url destFile : String) : ContainerCustomizerFn :=
  fun runtime c =>
    (DownloadFile url destFile runtime c).bind
      (fun c' => .ok (c'.WithExec ["chmod", "755", destFile]))

/-- The execution steps `InstallGithubCli` records for a version and a list of
extensions, as the specification lists them: the download of the release
archive, its extraction, the move of the binary, the clean-up, and one
`gh extension install` per extension in the order given. -/
def githubCliSteps (version : String) (extensions : List String) : List (List String) :=
  [["sh", "-ec",
      "curl --location --fail --silent --show-error " ++
        ("https://github.com/cli/cli/releases/download/v" ++ version ++ "/gh_" ++ version ++
          "_linux_amd64.tar.gz") ++
        " --output " ++ "/tmp/gh_linux_amd64.tar.gz"],
    ["tar", "-xf", "/tmp/gh_linux_amd64.tar.gz", "-C", "/tmp"],
    ["mv", "/tmp/gh_" ++ version ++ "_linux_amd64/bin/gh", "/usr/local/bin/gh"],
    ["rm", "-rf", "/tmp/*"]] ++
  extensions.map (fun e => ["gh", "extension", "install", e])

/-- Whether `entry` is one of the colon-separated entries of a PATH value. -/
def pathHasEntry (pathValue entry : String) : Bool :=
  (splitChars ':' pathValue.data).contains entry.data

/-- Whether the file `name` exists in directory `path` of the working
directory. -/
def cacheFileExists (runtime : Runtime) (path name : String) : Bool :=
  match ((runtime.Workdir.Directory path).File name).eval with
  | .ok _ => true
  | .error _ => false

/-! ## Sample inputs -/

/-- A container whose PATH already lists the Go executable directory. -/
def goPathContainer : Container :=
  { env := [("PATH", "/usr/bin:/usr/local/go/bin")], mounts := [], secrets := [], execs := [] }

/-- A client whose host environment holds a token and that can resolve every
cache volume. -/
def sampleClient : Client := ⟨⟨[("GITHUB_TOKEN", "s3cr3t")]⟩, fun _ => false⟩

/-- A working directory with go.mod and without go.sum. -/
def partialRuntime : Runtime := ⟨sampleClient, ⟨.ok [(["go.mod"], ⟨"module x", true⟩)]⟩⟩

/-- A working directory with go.mod and go.sum. -/
def fullRuntime : Runtime :=
  ⟨sampleClient, ⟨.ok [(["go.mod"], ⟨"module x", true⟩), (["go.sum"], ⟨"", true⟩)]⟩⟩

/-- A working directory with neither go.mod nor go.sum. -/
def bareRuntime : Runtime := ⟨sampleClient, ⟨.ok [(["README.md"], ⟨"daggers", true⟩)]⟩⟩

/-- A working directory with go.mod and go.sum, where go.sum cannot be read. -/
def unreadableRuntime : Runtime :=
  ⟨sampleClient, ⟨.ok [(["go.mod"], ⟨"module x", true⟩), (["go.sum"], ⟨"", false⟩)]⟩⟩

/-- The working directory with go.mod and go.sum, and a client that cannot
resolve the volume of the go-mod- key of these files. -/
def modRefusingRuntime : Runtime :=
  ⟨⟨⟨[]⟩, fun key => key = "go-mod-go.mod=module x;go.sum=;"⟩, fullRuntime.Workdir⟩

/-- A stand-in digest for the sample inputs: it writes its input out. -/
def sampleDigest : Digest :=
  fun inputs => String.join (inputs.map (fun p => p.1 ++ "=" ++ p.2 ++ ";"))

end Daggers

namespace Svu

/-! ## svu options (`dagger/svu/options.go`) -/

/-- Go `Command`: the svu sub-command, a string. -/
abbrev Command := String

def CommandNext : Command := "next"
def CommandMajor : Command := "major"
def CommandMinor : Command := "minor"
def CommandPatch : Command := "patch"
def CommandCurrent : Command := "current"

/-- Go `TagMode`: a value of the --tag-mode flag, a string. -/
abbrev TagMode := String

def TagModeAllBranches : TagMode := "all-branches"
def TagModeCurrentBranch : TagMode := "current-branch"

/-- Go `Config`. -/
structure Config where
  Version : String
  Metadata : Bool
  Prerelease : Bool
  Build : Bool
  Command : String
  Pattern : String
  Prefix : String
  Suffix : String
  TagMode : String
  deriving DecidableEq, Repr

/-- Go `daggers.Option[Config]`: a function from a configuration to a
configuration. -/
abbrev ConfigOption := Config → Config

/-- Go `SVUVersion`. -/
def SVUVersion (v : String) : ConfigOption := fun c => { c with Version := v }

/-- Go `WithMetadata`. -/
def WithMetadata (b : Bool) : ConfigOption := fun c => { c with Metadata := b }

/-- Go `WithPreRelease`. -/
def WithPreRelease (b : Bool) : ConfigOption := fun c => { c with Prerelease := b }

/-- Go `WithBuild`. -/
def WithBuild (b : Bool) : ConfigOption := fun c => { c with Build := b }

/-- Go `WithCommand`. -/
def WithCommand (cmd : Command) : ConfigOption := fun c => { c with Command := cmd }

/-- Go `WithPattern`. -/
def WithPattern (pattern : String) : ConfigOption := fun c => { c with Pattern := pattern }

/-- Go `WithPrefix`. -/
def WithPrefix (pfx : String) : ConfigOption := fun c => { c with Prefix := pfx }

/-- Go `WithSuffix`. -/
def WithSuffix (suffix : String) : ConfigOption := fun c => { c with Suffix := suffix }

/-- Go `WithTagMode`. -/
def WithTagMode (tagMode : TagMode) : ConfigOption := fun c => { c with TagMode := tagMode }

/-- Failure to read a configuration from the environment. -/
inductive ConfigError where
  | invalidBool (varName value : String)
  deriving DecidableEq, Repr

/-- Go `strconv.ParseBool`. -/
def parseBool (varName value : String) : Except ConfigError Bool :=
  if value ∈ ["1", "t", "T", "TRUE", "true", "True"] then .ok true
  else if value ∈ ["0", "f", "F", "FALSE", "false", "False"] then .ok false
  else .error (.invalidBool varName value)

/-- The text a field with tag `env:"NAME"` and, when `envDefault` is given,
`envDefault:"..."` is read from: the variable `NAME` when set, else the
default, else the empty string. -/
def envValue (environ : List (String × String)) (varName : String)
    (envDefault : Option String) : String :=
  match environ.lookup varName with
  | some v => v
  | none => envDefault.getD ""

/-- A string field: the text read. -/
def envString (environ : List (String × String)) (varName : String)
    (envDefault : Option String) : String :=
  envValue environ varName envDefault

/-- A boolean field: the text read, parsed; an empty text leaves the field at
its zero value. -/
def envBool (environ : List (String × String)) (varName : String)
    (envDefault : Option String) : Except ConfigError Bool :=
  let value := envValue environ varName envDefault
  if value = "" then .ok false else parseBool varName value

/-- The configuration the struct tags of `Config` describe, for a process
environment. -/
def parseConfig (environ : List (String × String)) : Except ConfigError Config :=
  match envBool environ "SVU_METADATA" (some "true"),
        envBool environ "SVU_PRERELEASE" (some "true"),
        envBool environ "SVU_BUILD" (some "true") with
  | .ok metadata, .ok prerelease, .ok build =>
    .ok
      { Version := envString environ "SVU_VERSION" (some "v1.9.0")
        Metadata := metadata
        Prerelease := prerelease
        Build := build
        Command := envString environ "SVU_COMMAND" (some "next")
        Pattern := envString environ "SVU_PATTERN" none
        Prefix := envString environ "SVU_PREFIX" none
        Suffix := envString environ "SVU_SUFFIX" none
        TagMode := envString environ "SVU_TAG_MODE" (some "all-branches") }
  | .error e, _, _ => .error e
  | _, .error e, _ => .error e
  | _, _, .error e => .error e

/-- Modelled from the spec: `daggers.InitConfig`, which is not among the source
files. The configuration starts from the documented defaults of the struct
(its `env` and `envDefault` tags, read against the process environment) and
the options are applied to it in order. -/
def InitConfig (environ : List (String × String)) (opts : List ConfigOption) :
    Except ConfigError Config :=
  match parseConfig environ with
  | .error e => .error e
  | .ok config => .ok (opts.foldl (fun c o => o c) config)

/-- The fields of `Config`. -/
inductive Field where
  | Version | Metadata | Prerelease | Build | Command | Pattern | Prefix | Suffix | TagMode
  deriving DecidableEq, Repr

/-- A call of one of the nine options, with its argument. -/
inductive OptionCall where
  | SVUVersion (v : String)
  | WithMetadata (b : Bool)
  | WithPreRelease (b : Bool)
  | WithBuild (b : Bool)
  | WithCommand (cmd : Command)
  | WithPattern (pattern : String)
  | WithPrefix (pfx : String)
  | WithSuffix (suffix : String)
  | WithTagMode (tagMode : TagMode)
  deriving DecidableEq, Repr

/-- The option a call denotes. -/
def OptionCall.run : OptionCall → ConfigOption
  | .SVUVersion v => Svu.SVUVersion v
  | .WithMetadata b => Svu.WithMetadata b
  | .WithPreRelease b => Svu.WithPreRelease b
  | .WithBuild b => Svu.WithBuild b
  | .WithCommand cmd => Svu.WithCommand cmd
  | .WithPattern pattern => Svu.WithPattern pattern
  | .WithPrefix pfx => Svu.WithPrefix pfx
  | .WithSuffix suffix => Svu.WithSuffix suffix
  | .WithTagMode tagMode => Svu.WithTagMode tagMode

/-- The field a call assigns. -/
def OptionCall.field : OptionCall → Field
  | .SVUVersion _ => .Version
  | .WithMetadata _ => .Metadata
  | .WithPreRelease _ => .Prerelease
  | .WithBuild _ => .Build
  | .WithCommand _ => .Command
  | .WithPattern _ => .Pattern
  | .WithPrefix _ => .Prefix
  | .WithSuffix _ => .Suffix
  | .WithTagMode _ => .TagMode

/-- A sample configuration. -/
def sampleConfig : Config :=
  { Version := "v1.9.0", Metadata := true, Prerelease := false, Build := true,
    Command := "patch", Pattern := "v*", Prefix := "v", Suffix := "-rc",
    TagMode := "current-branch" }

end Svu

/-! # Theorems -/

namespace Daggers

/-! ## Downloads -/

/-- C4: `DownloadFile` only records intent. For every url, destination, runtime
and container it returns a container and no error, and that container is the
input with exactly one execution step appended, the `sh -ec` step running
curl on the url with the destination as output; environment variables, mounts,
secret variables and the earlier steps are those of the input. -/
theorem DownloadFile_records_one_step (url destFile : String) (runtime : Runtime)
    (c : Container) :
    ∃ c', DownloadFile url destFile runtime c = .ok c' ∧
      c'.execs = c.execs ++
        [["sh", "-ec",
          "curl --location --fail --silent --show-error " ++ url ++ " --output " ++ destFile]] ∧
      c'.env = c.env ∧ c'.mounts = c.mounts ∧ c'.secrets = c.secrets :=
  ⟨_, rfl, rfl, rfl, rfl, rfl⟩

/-- C5: `DownloadExecutableFile` is `DownloadFile` followed by the step
`chmod 755 dest`. It agrees with the specification's composition, its result is
the result of `DownloadFile` with that one step appended, and it fails exactly
when `DownloadFile` fails, with the same error and no container. -/
theorem DownloadExecutableFile_eq_DownloadFile_then_chmod (url destFile : String)
    (runtime : Runtime) (c : Container) :
    DownloadExecutableFile url destFile runtime c
        = DownloadExecutableFileSpec url destFile runtime c ∧
      (∃ c', DownloadFile url destFile runtime c = .ok c' ∧
        DownloadExecutableFile url destFile runtime c
          = .ok (c'.WithExec ["chmod", "755", destFile])) ∧
      (∀ e, DownloadExecutableFile url destFile runtime c = .error e ↔
        DownloadFile url destFile runtime c = .error e) := by
  refine ⟨rfl, ⟨_, rfl, rfl⟩, fun e => ?_⟩
  simp [DownloadExecutableFile, DownloadFile]

/-! ## The GitHub CLI -/

theorem foldl_WithExec {α : Type} (f : α → List String) (l : List α) (c : Container) :
    l.foldl (fun c x => c.WithExec (f x)) c = { c with execs := c.execs ++ l.map f } := by
  induction l generalizing c with
  | nil => simp
  | cons x xs ih =>
    rw [List.foldl_cons, ih]
    simp [Container.WithExec]

theorem InstallGithubCli_eq (version : String) (extensions : List String)
    (runtime : Runtime) (c : Container) :
    InstallGithubCli version extensions runtime c =
      .ok { c with
        secrets := c.secrets ++ [("GITHUB_TOKEN", ⟨"GITHUB_TOKEN"⟩)]
        execs := c.execs ++
          githubCliSteps (if version = "" then "2.20.2" else version) extensions } := by
  simp only [InstallGithubCli, ApplyCustomizations, ApplyCustomizationsFrom, DownloadFile,
    foldl_WithExec]
  simp [Container.WithExec, Container.WithSecretVariable, githubCliSteps,
    Host.EnvVariable, HostVariable.Secret]

/-- C6: `InstallGithubCli` passes the host GITHUB_TOKEN to the container as a
secret variable only. For every version, extension list, input container and
runtime it succeeds; the plain environment variables of the result are those of
the input; the secret variable GITHUB_TOKEN is added, bound to the handle on the
host variable; and the token value does not reach the recorded steps: a runtime
with any other host environment yields the same steps and the same plain
environment. -/
theorem InstallGithubCli_token_only_secret (version : String) (extensions : List String)
    (runtime runtime' : Runtime) (c : Container) :
    ∃ c' c'', InstallGithubCli version extensions runtime c = .ok c' ∧
      InstallGithubCli version extensions runtime' c = .ok c'' ∧
      c'.env = c.env ∧
      c'.envLookup "GITHUB_TOKEN" = c.envLookup "GITHUB_TOKEN" ∧
      c'.secrets = c.secrets ++
        [("GITHUB_TOKEN", (runtime.Client.Host.EnvVariable "GITHUB_TOKEN").Secret)] ∧
      c''.execs = c'.execs ∧ c''.env = c'.env := by
  refine ⟨_, _, InstallGithubCli_eq version extensions runtime c,
    InstallGithubCli_eq version extensions runtime' c, rfl, rfl, rfl, rfl, rfl⟩

/-- C10: `InstallGithubCli` installs the extensions one after the other in the
order given. For every version `v` (the empty version standing for 2.20.2) and
every extension list it succeeds, and the steps appended to those of the input
container are the download of the release archive of `v`, the extraction, the
move of the binary, the clean-up, and one `gh extension install` step per
extension in list order: four steps plus one per extension. -/
theorem InstallGithubCli_steps_in_order (version : String) (extensions : List String)
    (runtime : Runtime) (c : Container) :
    ∃ c', InstallGithubCli version extensions runtime c = .ok c' ∧
      c'.execs = c.execs ++
        ([["sh", "-ec",
            "curl --location --fail --silent --show-error " ++
              ("https://github.com/cli/cli/releases/download/v" ++
                (if version = "" then "2.20.2" else version) ++ "/gh_" ++
                (if version = "" then "2.20.2" else version) ++ "_linux_amd64.tar.gz") ++
              " --output " ++ "/tmp/gh_linux_amd64.tar.gz"],
          ["tar", "-xf", "/tmp/gh_linux_amd64.tar.gz", "-C", "/tmp"],
          ["mv", "/tmp/gh_" ++ (if version = "" then "2.20.2" else version) ++
            "_linux_amd64/bin/gh", "/usr/local/bin/gh"],
          ["rm", "-rf", "/tmp/*"]] ++
        extensions.map (fun e => ["gh", "extension", "install", e])) ∧
      c'.execs.length = c.execs.length + (4 + extensions.length) := by
  refine ⟨_, InstallGithubCli_eq version extensions runtime c, rfl, ?_⟩
  simp [githubCliSteps]
  omega

end Daggers

namespace Svu

/-! ## svu options -/

/-- C7: the default svu configuration, with no option applied and no SVU_*
variable set. Version, Metadata, Prerelease, Build, Command, TagMode and Suffix
have the documented defaults; Pattern and Prefix are the empty string, where
the doc comments of `WithPattern` and `WithPrefix` state "*" and "v". -/
theorem InitConfig_defaults :
    ∃ config, InitConfig [] [] = .ok config ∧
      config =
        { Version := "v1.9.0", Metadata := true, Prerelease := true, Build := true,
          Command := "next", Pattern := "", Prefix := "", Suffix := "",
          TagMode := "all-branches" } ∧
      config.Pattern ≠ "*" ∧ config.Prefix ≠ "v" :=
  ⟨_, rfl, rfl, by decide, by decide⟩

/-- C8: each svu option can be overridden on its own. Applied to any
configuration, each of the nine options sets its own field to the value given
and leaves the other eight fields as they were; two options on different
fields commute; of two options on the same field the one applied last wins. -/
theorem options_set_own_field_only (c : Config) :
    (∀ v, SVUVersion v c = { c with Version := v }) ∧
    (∀ b, WithMetadata b c = { c with Metadata := b }) ∧
    (∀ b, WithPreRelease b c = { c with Prerelease := b }) ∧
    (∀ b, WithBuild b c = { c with Build := b }) ∧
    (∀ cmd, WithCommand cmd c = { c with Command := cmd }) ∧
    (∀ pattern, WithPattern pattern c = { c with Pattern := pattern }) ∧
    (∀ pfx, WithPrefix pfx c = { c with Prefix := pfx }) ∧
    (∀ suffix, WithSuffix suffix c = { c with Suffix := suffix }) ∧
    (∀ tagMode, WithTagMode tagMode c = { c with TagMode := tagMode }) ∧
    (∀ o₁ o₂ : OptionCall, o₁.field ≠ o₂.field →
      o₂.run (o₁.run c) = o₁.run (o₂.run c)) ∧
    (∀ o₁ o₂ : OptionCall, o₁.field = o₂.field → o₂.run (o₁.run c) = o₂.run c) := by
  refine ⟨fun _ => rfl, fun _ => rfl, fun _ => rfl, fun _ => rfl, fun _ => rfl,
    fun _ => rfl, fun _ => rfl, fun _ => rfl, fun _ => rfl, ?_, ?_⟩
  · intro o₁ o₂ h
    cases o₁ <;> cases o₂ <;> first | rfl | exact absurd rfl h
  · intro o₁ o₂ h
    cases o₁ <;> cases o₂ <;> first | rfl | exact absurd h (by simp [OptionCall.field])

/-- Overriding on the sample configuration: the version and the tag prefix are
set in either order with the same result, and of two prefixes the last is
kept. -/
theorem options_set_own_field_only_witness :
    (OptionCall.SVUVersion "v2.0.0").field ≠ (OptionCall.WithPrefix "rel-").field ∧
    WithPrefix "rel-" (SVUVersion "v2.0.0" sampleConfig)
      = SVUVersion "v2.0.0" (WithPrefix "rel-" sampleConfig) ∧
    WithPrefix "b" (WithPrefix "a" sampleConfig) = WithPrefix "b" sampleConfig := by
  obtain ⟨-, -, -, -, -, -, -, -, -, hcomm, hlast⟩ := options_set_own_field_only sampleConfig
  exact ⟨by decide, hcomm (.SVUVersion "v2.0.0") (.WithPrefix "rel-") (by decide),
    hlast (.WithPrefix "a") (.WithPrefix "b") rfl⟩

end Svu

namespace Daggers

/-! ## Environment variables and mounts -/

theorem find?_filter_ne_append {β : Type} (l : List (String × β)) (name k : String) (v : β) :
    ((l.filter (fun e => e.1 ≠ name) ++ [(name, v)]).find? (fun e => e.1 = k)).map (fun e => e.2)
      = if k = name then some v else (l.find? (fun e => e.1 = k)).map (fun e => e.2) := by
  induction l with
  | nil =>
    by_cases h : k = name
    · simp [h]
    · have h' : ¬ name = k := fun e => h e.symm
      simp [h, h']
  | cons a l ih =>
    by_cases ha : a.1 = name
    · have hf : (a :: l).filter (fun e => e.1 ≠ name) = l.filter (fun e => e.1 ≠ name) := by
        simp [List.filter_cons, ha]
      rw [hf, ih]
      by_cases hk : k = name
      · simp [hk]
      · have hak : ¬ a.1 = k := fun e => hk (e.symm.trans ha)
        simp [hk, List.find?_cons, hak]
    · have hf : (a :: l).filter (fun e => e.1 ≠ name)
          = a :: l.filter (fun e => e.1 ≠ name) := by
        simp [List.filter_cons, ha]
      rw [hf, List.cons_append]
      by_cases hak : a.1 = k
      · have hk : ¬ k = name := fun e => ha (hak.trans e)
        simp [List.find?_cons, hak, hk]
      · rw [List.find?_cons, List.find?_cons]
        simp only [hak, decide_False]
        exact ih

theorem envLookup_WithEnvVariable (c : Container) (name value k : String) :
    (c.WithEnvVariable name value).envLookup k
      = if k = name then some value else c.envLookup k := by
  simp only [Container.envLookup, Container.WithEnvVariable]
  exact find?_filter_ne_append c.env name k value

theorem mountLookup_WithMountedCache (c : Container) (path k : String) (cache : CacheVolume) :
    (c.WithMountedCache path cache).mountLookup k
      = if k = path then some cache else c.mountLookup k := by
  simp only [Container.mountLookup, Container.WithMountedCache]
  exact find?_filter_ne_append c.mounts path k cache

theorem append_colon_ne (existing path : String) : existing ++ ":" ++ path ≠ existing := by
  intro h
  have hlen := congrArg String.length h
  have hcolon : ":".length = 1 := rfl
  simp only [String.length_append, hcolon] at hlen
  omega
  

/-! ## PATH -/

/-- C1, on the code as written: an entry already on PATH is appended again.
The sample container's PATH lists /usr/local/go/bin; after `InstallGo` it lists
it twice, so PATH has changed, and `AppendToPATH` applied twice gives a PATH
other than applied once. -/
theorem InstallGo_appends_entry_already_present :
    goPathContainer.envLookup "PATH" = some "/usr/bin:/usr/local/go/bin" ∧
    pathHasEntry "/usr/bin:/usr/local/go/bin" "/usr/local/go/bin" = true ∧
    (InstallGo Context.background "" partialRuntime goPathContainer).map
        (fun c => c.envLookup "PATH")
      = .ok (some "/usr/bin:/usr/local/go/bin:/usr/local/go/bin") ∧
    (AppendToPATH Context.background "/usr/local/go/bin" partialRuntime goPathContainer).map
        (fun c => c.envLookup "PATH")
      = .ok (some "/usr/bin:/usr/local/go/bin:/usr/local/go/bin") ∧
    ((AppendToPATH Context.background "/usr/local/go/bin" partialRuntime goPathContainer).bind
        (AppendToPATH Context.background "/usr/local/go/bin" partialRuntime)).map
        (fun c => c.envLookup "PATH")
      = .ok (some "/usr/bin:/usr/local/go/bin:/usr/local/go/bin:/usr/local/go/bin") := by
  decide

/-- C1, as the code has it: the PATH append is unconditional. With a live
context, `AppendToPATH(p)` succeeds on every container and sets PATH to the
previous value (empty when unset) followed by a colon and `p`, so PATH always
changes; applied a second time it appends `p` once more; and `InstallGo` sets
PATH to the previous value followed by `:/usr/local/go/bin`, whether or not
that entry was present. -/
theorem AppendToPATH_appends_always (ctx : Context) (path : String) (runtime : Runtime)
    (c : Container) (h : ctx.err = none) :
    ∃ c₁ c₂, AppendToPATH ctx path runtime c = .ok c₁ ∧
      c₁.envLookup "PATH" = some ((c.envLookup "PATH").getD "" ++ ":" ++ path) ∧
      c₁.envLookup "PATH" ≠ c.envLookup "PATH" ∧
      AppendToPATH ctx path runtime c₁ = .ok c₂ ∧
      c₂.envLookup "PATH" = some ((c.envLookup "PATH").getD "" ++ ":" ++ path ++ ":" ++ path) ∧
      c₂.envLookup "PATH" ≠ c₁.envLookup "PATH" ∧
      ∀ version, ∃ c₃, InstallGo ctx version runtime c = .ok c₃ ∧
        c₃.envLookup "PATH"
          = some ((c.envLookup "PATH").getD "" ++ ":" ++ "/usr/local/go/bin") := by
  have key : ∀ (p : String) (d : Container), AppendToPATH ctx p runtime d
      = .ok (d.WithEnvVariable "PATH" ((d.envLookup "PATH").getD "" ++ ":" ++ p)) := by
    intro p d
    simp [AppendToPATH, Container.EnvVariable, h]
  have look : ∀ (p : String) (d : Container),
      (d.WithEnvVariable "PATH" ((d.envLookup "PATH").getD "" ++ ":" ++ p)).envLookup "PATH"
        = some ((d.envLookup "PATH").getD "" ++ ":" ++ p) := by
    intro p d
    rw [envLookup_WithEnvVariable]; simp
  have grows : ∀ (p : String) (d : Container),
      some ((d.envLookup "PATH").getD "" ++ ":" ++ p) ≠ d.envLookup "PATH" := by
    intro p d hd
    cases hl : d.envLookup "PATH" with
    | none => rw [hl] at hd; cases hd
    | some x =>
      rw [hl] at hd
      exact append_colon_ne x p (Option.some.inj hd)
  refine ⟨_, _, key path c, look path c, ?_, key path _, ?_, ?_, ?_⟩
  · rw [look]; exact grows path c
  · rw [look, look]; rfl
  · rw [look]; exact grows path _
  · intro version
    refine ⟨_, key _ _, ?_⟩
    rw [look]; rfl

/-- The unconditional append at the sample container and a live context. -/
theorem AppendToPATH_appends_always_witness :
    Context.background.err = none ∧
    ∃ c₁ c₂, AppendToPATH Context.background "/usr/local/go/bin" partialRuntime goPathContainer
        = .ok c₁ ∧
      c₁.envLookup "PATH"
        = some ((goPathContainer.envLookup "PATH").getD "" ++ ":" ++ "/usr/local/go/bin") ∧
      c₁.envLookup "PATH" ≠ goPathContainer.envLookup "PATH" ∧
      AppendToPATH Context.background "/usr/local/go/bin" partialRuntime c₁ = .ok c₂ ∧
      c₂.envLookup "PATH"
        = some ((goPathContainer.envLookup "PATH").getD "" ++ ":" ++ "/usr/local/go/bin" ++
            ":" ++ "/usr/local/go/bin") ∧
      c₂.envLookup "PATH" ≠ c₁.envLookup "PATH" ∧
      ∀ version, ∃ c₃, InstallGo Context.background version partialRuntime goPathContainer
          = .ok c₃ ∧
        c₃.envLookup "PATH"
          = some ((goPathContainer.envLookup "PATH").getD "" ++ ":" ++ "/usr/local/go/bin") :=
  ⟨rfl, AppendToPATH_appends_always Context.background "/usr/local/go/bin" partialRuntime
    goPathContainer rfl⟩

/-! ## The Go cache directory -/

theorem getGoCacheDir_eq (ctx : Context) (runtime : Runtime) (path : String)
    (cacheFiles : List String) :
    getGoCacheDir ctx runtime path cacheFiles =
      match (cacheFiles.foldl (cacheDirStep ctx runtime (if path = "" then "." else path))
          runtime.Client.Directory).Entries ctx with
      | .error err => .error (.failedToGetCacheFiles err)
      | .ok entries =>
        if entries.length ≠ cacheFiles.length then .error (.missingCacheFiles cacheFiles)
        else .ok (cacheFiles.foldl (cacheDirStep ctx runtime (if path = "" then "." else path))
          runtime.Client.Directory) := rfl

theorem topNames_cons_filter_le (t : Tree) (target : List String) (content : FileContent) :
    (Tree.topNames ((target, content) :: t.filter (fun e => e.1 ≠ target))).length
      ≤ t.topNames.length + 1 := by
  have hsub : (List.filterMap (fun e : List String × FileContent => e.1.head?)
      (t.filter (fun e => e.1 ≠ target))).toFinset
        ⊆ (List.filterMap (fun e : List String × FileContent => e.1.head?) t).toFinset := by
    intro x hx
    rw [List.mem_toFinset] at hx ⊢
    exact (List.filter_sublist t).filterMap _ |>.subset hx
  have hcard := Finset.card_le_card hsub
  simp only [Tree.topNames, ← List.card_toFinset] at hcard ⊢
  cases target with
  | nil =>
    simp only [List.filterMap_cons, List.head?_nil]
    omega
  | cons x xs =>
    simp only [List.filterMap_cons, List.head?_cons, List.toFinset_cons]
    have := Finset.card_insert_le x (List.filterMap (fun e : List String × FileContent => e.1.head?)
      (t.filter (fun e => e.1 ≠ x :: xs))).toFinset
    omega

theorem WithFile_entries_le (d : DirectoryQuery) (path : String) (source : FileQuery)
    (t' : Tree) (h : (d.WithFile path source).eval = .ok t') :
    ∃ t, d.eval = .ok t ∧ t'.topNames.length ≤ t.topNames.length + 1 := by
  unfold DirectoryQuery.WithFile at h
  split at h
  · cases h
  · cases h
  · rename_i t base content hd hs
    refine ⟨t, hd, ?_⟩
    simp only at h
    split at h
    · cases h
    · cases h
      exact topNames_cons_filter_le t _ content

theorem ID_ok_exists (ctx : Context) (runtime : Runtime) (path name : String) (x : FileData)
    (h : ((runtime.Workdir.Directory path).File name).ID ctx = .ok x) :
    cacheFileExists runtime path name = true := by
  unfold FileQuery.ID at h
  unfold cacheFileExists
  split at h
  · cases h
  · rw [h]

theorem foldl_cacheDirStep_entries_le (ctx : Context) (runtime : Runtime) (path : String)
    (cacheFiles : List String) (d : DirectoryQuery) (t' : Tree)
    (h : (cacheFiles.foldl (cacheDirStep ctx runtime path) d).eval = .ok t') :
    ∃ t, d.eval = .ok t ∧
      t'.topNames.length
        ≤ t.topNames.length + cacheFiles.countP (cacheFileExists runtime path) := by
  induction cacheFiles generalizing d with
  | nil => exact ⟨t', h, by simp⟩
  | cons f fs ih =>
    rw [List.foldl_cons] at h
    obtain ⟨t₁, h₁, hle⟩ := ih _ h
    unfold cacheDirStep at h₁
    simp only at h₁
    split at h₁
    · rename_i x hx
      obtain ⟨t, ht, hle'⟩ := WithFile_entries_le d path _ t₁ h₁
      refine ⟨t, ht, ?_⟩
      have hex := ID_ok_exists ctx runtime path f x hx
      rw [List.countP_cons_of_pos _ _ hex]
      omega
    · refine ⟨t₁, h₁, ?_⟩
      cases hex : cacheFileExists runtime path f with
      | true =>
        rw [List.countP_cons_of_pos _ _ hex]
        omega
      | false =>
        rw [List.countP_cons_of_neg _ _ (by simp [hex])]
        exact hle

theorem cacheFileExists_default (runtime : Runtime) (path name : String) :
    cacheFileExists runtime (if path = "" then "." else path) name
      = cacheFileExists runtime path name := by
  by_cases h : path = ""
  · subst h
    have h₁ : cleanPath "." = [] := by decide
    have h₂ : cleanPath "" = [] := by decide
    simp [cacheFileExists, DirectoryQuery.Directory, h₁, h₂]
  · simp [h]

theorem foldl_cacheDirStep_none (ctx : Context) (runtime : Runtime) (path : String)
    (cacheFiles : List String) (d : DirectoryQuery)
    (h : ∀ f ∈ cacheFiles, cacheFileExists runtime path f = false) :
    cacheFiles.foldl (cacheDirStep ctx runtime path) d = d := by
  induction cacheFiles generalizing d with
  | nil => rfl
  | cons f fs ih =>
    rw [List.foldl_cons]
    have hf : cacheDirStep ctx runtime path d f = d := by
      unfold cacheDirStep
      simp only
      split
      · rename_i x hx
        have := ID_ok_exists ctx runtime path f x hx
        rw [h f (List.mem_cons_self _ _)] at this
        cases this
      · rfl
    rw [hf]
    exact ih d (fun g hg => h g (List.mem_cons_of_mem _ hg))

theorem WithMountedGoCache_of_getGoCacheDir_error (digest : Digest) (ctx : Context)
    (path : String) (runtime : Runtime) (c : Container) (e : Error)
    (h : getGoCacheDir ctx runtime path ["go.mod", "go.sum"] = .error e) :
    WithMountedGoCache digest ctx path runtime c = .error e := by
  simp only [WithMountedGoCache, h]

/-- C2, on the code as written: with go.mod present and go.sum absent,
`getGoCacheDir` fails with the missing cache files error, and so does
`WithMountedGoCache`. -/
theorem getGoCacheDir_partial_absence_fails :
    cacheFileExists partialRuntime "" "go.mod" = true ∧
    cacheFileExists partialRuntime "" "go.sum" = false ∧
    getGoCacheDir Context.background partialRuntime "" ["go.mod", "go.sum"]
      = .error (.missingCacheFiles ["go.mod", "go.sum"]) ∧
    WithMountedGoCache sampleDigest Context.background "" partialRuntime goPathContainer
      = .error (.missingCacheFiles ["go.mod", "go.sum"]) := by
  decide

/-- C2, as the code has it: absence of any tracked file is an error. For
every context, runtime, path and list of cache file names of which at least
one does not exist under the working directory, `getGoCacheDir` returns no
directory: it fails with the missing cache files error for the list, or with
the wrapped error of the entries query. `WithMountedGoCache` then fails with
the same error. -/
theorem getGoCacheDir_fails_when_a_file_is_missing (ctx : Context) (runtime : Runtime)
    (path : String) (cacheFiles : List String)
    (h : ∃ f ∈ cacheFiles, cacheFileExists runtime path f = false) :
    ((∃ e, getGoCacheDir ctx runtime path cacheFiles = .error (.failedToGetCacheFiles e)) ∨
      getGoCacheDir ctx runtime path cacheFiles = .error (.missingCacheFiles cacheFiles)) ∧
    (cacheFiles = ["go.mod", "go.sum"] → ∀ digest c, ∃ e,
      getGoCacheDir ctx runtime path cacheFiles = .error e ∧
      WithMountedGoCache digest ctx path runtime c = .error e) := by
  have main : (∃ e, getGoCacheDir ctx runtime path cacheFiles
        = .error (.failedToGetCacheFiles e)) ∨
      getGoCacheDir ctx runtime path cacheFiles = .error (.missingCacheFiles cacheFiles) := by
    rw [getGoCacheDir_eq]
    cases hE : (cacheFiles.foldl (cacheDirStep ctx runtime (if path = "" then "." else path))
        runtime.Client.Directory).Entries ctx with
    | error e => exact Or.inl ⟨e, rfl⟩
    | ok entries =>
      right
      have hlt : entries.length < cacheFiles.length := by
        unfold DirectoryQuery.Entries at hE
        split at hE
        · cases hE
        · split at hE
          · cases hE
          · rename_i t' ht'
            cases hE
            obtain ⟨t, ht, hle⟩ := foldl_cacheDirStep_entries_le ctx runtime _ cacheFiles _ t' ht'
            have ht0 : t = [] := by
              simp only [Client.Directory] at ht
              exact (Except.ok.inj ht).symm
            subst ht0
            obtain ⟨f, hf, hfe⟩ := h
            have hcount : cacheFiles.countP
                (cacheFileExists runtime (if path = "" then "." else path))
                  < cacheFiles.length := by
              rw [List.countP_eq_length_filter]
              apply List.length_filter_lt_length_iff_exists.mpr
              exact ⟨f, hf, by rw [cacheFileExists_default, hfe]; simp⟩
            have h0 : Tree.topNames ([] : Tree) = [] := rfl
            rw [h0] at hle
            simp only [List.length_nil] at hle
            omega
      simp only
      rw [if_pos (Nat.ne_of_lt hlt)]
  refine ⟨main, fun hfiles digest c => ?_⟩
  subst hfiles
  rcases main with ⟨e, he⟩ | he
  · exact ⟨_, he, WithMountedGoCache_of_getGoCacheDir_error digest ctx path runtime c _ he⟩
  · exact ⟨_, he, WithMountedGoCache_of_getGoCacheDir_error digest ctx path runtime c _ he⟩

/-- The failure on a missing file, at the working directory that has go.mod and
no go.sum. -/
theorem getGoCacheDir_fails_when_a_file_is_missing_witness :
    (∃ f ∈ ["go.mod", "go.sum"], cacheFileExists partialRuntime "" f = false) ∧
    ((∃ e, getGoCacheDir Context.background partialRuntime "" ["go.mod", "go.sum"]
        = .error (.failedToGetCacheFiles e)) ∨
      getGoCacheDir Context.background partialRuntime "" ["go.mod", "go.sum"]
        = .error (.missingCacheFiles ["go.mod", "go.sum"])) ∧
    (["go.mod", "go.sum"] = ["go.mod", "go.sum"] → ∀ digest c, ∃ e,
      getGoCacheDir Context.background partialRuntime "" ["go.mod", "go.sum"] = .error e ∧
      WithMountedGoCache digest Context.background "" partialRuntime c = .error e) :=
  ⟨⟨"go.sum", by decide, by decide⟩,
    getGoCacheDir_fails_when_a_file_is_missing Context.background partialRuntime ""
      ["go.mod", "go.sum"] ⟨"go.sum", by decide, by decide⟩⟩

/-- C3, on the code as written: for the empty list of cache file names, none
of which exists, and a live context, `getGoCacheDir` returns the empty
directory and no error. -/
theorem getGoCacheDir_empty_list_succeeds :
    (∀ f ∈ ([] : List String), cacheFileExists partialRuntime "" f = false) ∧
    getGoCacheDir Context.background partialRuntime "" []
      = .ok partialRuntime.Client.Directory ∧
    partialRuntime.Client.Directory.Entries Context.background = .ok [] := by
  exact ⟨fun f hf => absurd hf (List.not_mem_nil f), by decide, by decide⟩

/-- C3, as the code has it: for every context, runtime, path and non-empty
list of cache file names none of which exists under the working directory,
`getGoCacheDir` returns an error and no directory: the missing cache files
error for the list with a live context, the wrapped context error otherwise.
`WithMountedGoCache` then fails with the same error, before any cache volume
is resolved. -/
theorem getGoCacheDir_fails_when_no_file_exists (ctx : Context) (runtime : Runtime)
    (path : String) (cacheFiles : List String) (hne : cacheFiles ≠ [])
    (h : ∀ f ∈ cacheFiles, cacheFileExists runtime path f = false) :
    getGoCacheDir ctx runtime path cacheFiles
        = .error (match ctx.err with
          | some e => .failedToGetCacheFiles e
          | none => .missingCacheFiles cacheFiles) ∧
    (cacheFiles = ["go.mod", "go.sum"] → ∀ digest c,
      WithMountedGoCache digest ctx path runtime c
        = .error (match ctx.err with
          | some e => .failedToGetCacheFiles e
          | none => .missingCacheFiles cacheFiles)) := by
  have main : getGoCacheDir ctx runtime path cacheFiles
        = .error (match ctx.err with
          | some e => .failedToGetCacheFiles e
          | none => .missingCacheFiles cacheFiles) := by
    rw [getGoCacheDir_eq, foldl_cacheDirStep_none ctx runtime _ cacheFiles _
      (fun f hf => by rw [cacheFileExists_default]; exact h f hf)]
    cases hc : ctx.err with
    | some e => simp [DirectoryQuery.Entries, hc]
    | none =>
      have hlen : cacheFiles.length ≠ 0 := fun h0 => hne (List.length_eq_zero.mp h0)
      simp [DirectoryQuery.Entries, hc, Client.Directory, Tree.topNames, hne]
      exact fun h0 => hlen h0.symm
  refine ⟨main, fun hfiles digest c => ?_⟩
  subst hfiles
  exact WithMountedGoCache_of_getGoCacheDir_error digest ctx path runtime c _ main

/-- The failure when no file exists, at the working directory that has neither
go.mod nor go.sum: `getGoCacheDir` and `WithMountedGoCache` both fail with the
missing cache files error. -/
theorem getGoCacheDir_fails_when_no_file_exists_witness :
    (["go.mod", "go.sum"] ≠ [] ∧
      ∀ f ∈ ["go.mod", "go.sum"], cacheFileExists bareRuntime "" f = false) ∧
    getGoCacheDir Context.background bareRuntime "" ["go.mod", "go.sum"]
        = .error (.missingCacheFiles ["go.mod", "go.sum"]) ∧
    WithMountedGoCache sampleDigest Context.background "" bareRuntime goPathContainer
        = .error (.missingCacheFiles ["go.mod", "go.sum"]) :=
  ⟨⟨by decide, by decide⟩,
    (getGoCacheDir_fails_when_no_file_exists Context.background bareRuntime ""
      ["go.mod", "go.sum"] (by decide) (by decide)).1,
    (getGoCacheDir_fails_when_no_file_exists Context.background bareRuntime ""
      ["go.mod", "go.sum"] (by decide) (by decide)).2 rfl sampleDigest goPathContainer⟩

/-! ## The mounted Go caches -/

theorem envLookup_WithMountedCache (c : Container) (path k : String) (cache : CacheVolume) :
    (c.WithMountedCache path cache).envLookup k = c.envLookup k := rfl

theorem mountLookup_WithEnvVariable (c : Container) (name value k : String) :
    (c.WithEnvVariable name value).mountLookup k = c.mountLookup k := rfl

theorem Client_CacheVolume_ok (client : Client) (key : String) (v : CacheVolume)
    (h : client.CacheVolume key = .ok v) : v = ⟨key⟩ := by
  unfold Client.CacheVolume at h
  split at h
  · cases h
  · exact (Except.ok.inj h).symm

theorem NewCacheVolumeWithFileHashKeys_ok (digest : Digest) (ctx : Context) (client : Client)
    (keyPrefix : String) (dir : DirectoryQuery) (files : List String) (v : CacheVolume)
    (h : NewCacheVolumeWithFileHashKeys digest ctx client keyPrefix dir files = .ok v) :
    ∃ inputs, readInputs dir files = .ok inputs ∧ v = ⟨keyPrefix ++ digest inputs⟩ := by
  unfold NewCacheVolumeWithFileHashKeys at h
  split at h
  · cases h
  · split at h
    · cases h
    · split at h
      · cases h
      · rename_i inputs hr
        split at h
        · cases h
        · exact ⟨inputs, hr, Client_CacheVolume_ok client _ v h⟩

/-- C9: `WithMountedGoCache`. Whenever it succeeds, the cache directory was
assembled from go.mod and go.sum, the two volumes were resolved from that one
directory and file list, with keys made of the prefixes go-build- and go-mod-
and one and the same digest; in the result GOCACHE is /go/build-cache and
GOMODCACHE is /go/mod-cache, the build volume is mounted at /go/build-cache and
the mod volume at /go/mod-cache, and every other environment variable is as in
the input container. Whenever assembling the directory or resolving either
volume fails, that error is returned and no container. -/
theorem WithMountedGoCache_result (digest : Digest) (ctx : Context) (path : String)
    (runtime : Runtime) (c : Container) :
    (∀ c', WithMountedGoCache digest ctx path runtime c = .ok c' →
      ∃ cacheDir inputs,
        getGoCacheDir ctx runtime path ["go.mod", "go.sum"] = .ok cacheDir ∧
        NewCacheVolumeWithFileHashKeys digest ctx runtime.Client "go-build-" cacheDir
          ["go.mod", "go.sum"] = .ok ⟨"go-build-" ++ digest inputs⟩ ∧
        NewCacheVolumeWithFileHashKeys digest ctx runtime.Client "go-mod-" cacheDir
          ["go.mod", "go.sum"] = .ok ⟨"go-mod-" ++ digest inputs⟩ ∧
        c'.envLookup "GOCACHE" = some "/go/build-cache" ∧
        c'.envLookup "GOMODCACHE" = some "/go/mod-cache" ∧
        c'.mountLookup "/go/build-cache" = some ⟨"go-build-" ++ digest inputs⟩ ∧
        c'.mountLookup "/go/mod-cache" = some ⟨"go-mod-" ++ digest inputs⟩ ∧
        (∀ k, k ≠ "GOCACHE" → k ≠ "GOMODCACHE" → c'.envLookup k = c.envLookup k) ∧
        c'.secrets = c.secrets ∧ c'.execs = c.execs) ∧
    (∀ e, getGoCacheDir ctx runtime path ["go.mod", "go.sum"] = .error e →
      WithMountedGoCache digest ctx path runtime c = .error e) ∧
    (∀ cacheDir e, getGoCacheDir ctx runtime path ["go.mod", "go.sum"] = .ok cacheDir →
      NewCacheVolumeWithFileHashKeys digest ctx runtime.Client "go-build-" cacheDir
        ["go.mod", "go.sum"] = .error e →
      WithMountedGoCache digest ctx path runtime c = .error e) ∧
    (∀ cacheDir buildCache e,
      getGoCacheDir ctx runtime path ["go.mod", "go.sum"] = .ok cacheDir →
      NewCacheVolumeWithFileHashKeys digest ctx runtime.Client "go-build-" cacheDir
        ["go.mod", "go.sum"] = .ok buildCache →
      NewCacheVolumeWithFileHashKeys digest ctx runtime.Client "go-mod-" cacheDir
        ["go.mod", "go.sum"] = .error e →
      WithMountedGoCache digest ctx path runtime c = .error e) := by
  refine ⟨fun c' h => ?_, fun e he => ?_, fun cacheDir e hd he => ?_,
    fun cacheDir buildCache e hd hb he => ?_⟩
  · unfold WithMountedGoCache at h
    simp only at h
    split at h
    · cases h
    · rename_i cacheDir hd
      split at h
      · cases h
      · rename_i buildCache hb
        split at h
        · cases h
        · rename_i modCache hm
          obtain ⟨inputs, hr, hbv⟩ := NewCacheVolumeWithFileHashKeys_ok _ _ _ _ _ _ _ hb
          obtain ⟨inputs', hr', hmv⟩ := NewCacheVolumeWithFileHashKeys_ok _ _ _ _ _ _ _ hm
          have hin : inputs = inputs' := by
            rw [hr] at hr'
            exact Except.ok.inj hr'
          subst hin
          subst hbv hmv
          have hc' := (Except.ok.inj h).symm
          subst hc'
          refine ⟨cacheDir, inputs, hd, hb, hm, ?_, ?_, ?_, ?_, ?_, rfl, rfl⟩
          · rw [envLookup_WithMountedCache, envLookup_WithEnvVariable,
              envLookup_WithMountedCache, envLookup_WithEnvVariable, if_neg (by decide),
              if_pos rfl]
          · rw [envLookup_WithMountedCache, envLookup_WithEnvVariable]
            rfl
          · rw [mountLookup_WithMountedCache, mountLookup_WithEnvVariable,
              mountLookup_WithMountedCache, if_neg (by decide), if_pos rfl]
          · rw [mountLookup_WithMountedCache]
            rfl
          · intro k h₁ h₂
            rw [envLookup_WithMountedCache, envLookup_WithEnvVariable,
              envLookup_WithMountedCache, envLookup_WithEnvVariable, if_neg h₂, if_neg h₁]
  · exact WithMountedGoCache_of_getGoCacheDir_error digest ctx path runtime c e he
  · simp only [WithMountedGoCache, hd, he]
  · simp only [WithMountedGoCache, hd, hb, he]

/-- The mounted Go caches at four working directories. With go.mod and go.sum
present and readable `WithMountedGoCache` succeeds and its result is as
stated. With go.sum absent the cache directory fails and its error is
returned. With go.sum unreadable the cache directory is assembled, the build
volume fails with the read error, and that error is returned. With a client
that cannot resolve the go-mod- volume, the build volume is resolved, the mod
volume fails, and that error is returned. -/
theorem WithMountedGoCache_result_witness :
    (WithMountedGoCache sampleDigest Context.background "" fullRuntime goPathContainer
        = .ok
          { env := [("PATH", "/usr/bin:/usr/local/go/bin"), ("GOCACHE", "/go/build-cache"),
              ("GOMODCACHE", "/go/mod-cache")]
            mounts := [("/go/build-cache", ⟨"go-build-go.mod=module x;go.sum=;"⟩),
              ("/go/mod-cache", ⟨"go-mod-go.mod=module x;go.sum=;"⟩)]
            secrets := []
            execs := [] } ∧
      ∃ cacheDir inputs,
        getGoCacheDir Context.background fullRuntime "" ["go.mod", "go.sum"] = .ok cacheDir ∧
        NewCacheVolumeWithFileHashKeys sampleDigest Context.background fullRuntime.Client
          "go-build-" cacheDir ["go.mod", "go.sum"]
            = .ok ⟨"go-build-" ++ sampleDigest inputs⟩ ∧
        NewCacheVolumeWithFileHashKeys sampleDigest Context.background fullRuntime.Client
          "go-mod-" cacheDir ["go.mod", "go.sum"]
            = .ok ⟨"go-mod-" ++ sampleDigest inputs⟩) ∧
    (getGoCacheDir Context.background partialRuntime "" ["go.mod", "go.sum"]
        = .error (.missingCacheFiles ["go.mod", "go.sum"]) ∧
      WithMountedGoCache sampleDigest Context.background "" partialRuntime goPathContainer
        = .error (.missingCacheFiles ["go.mod", "go.sum"])) ∧
    (getGoCacheDir Context.background unreadableRuntime "" ["go.mod", "go.sum"]
        = .ok ⟨.ok [(["go.sum"], ⟨"", false⟩), (["go.mod"], ⟨"module x", true⟩)]⟩ ∧
      NewCacheVolumeWithFileHashKeys sampleDigest Context.background unreadableRuntime.Client
        "go-build-" ⟨.ok [(["go.sum"], ⟨"", false⟩), (["go.mod"], ⟨"module x", true⟩)]⟩
        ["go.mod", "go.sum"] = .error (.readError ["go.sum"]) ∧
      WithMountedGoCache sampleDigest Context.background "" unreadableRuntime goPathContainer
        = .error (.readError ["go.sum"])) ∧
    (getGoCacheDir Context.background modRefusingRuntime "" ["go.mod", "go.sum"]
        = .ok ⟨.ok [(["go.sum"], ⟨"", true⟩), (["go.mod"], ⟨"module x", true⟩)]⟩ ∧
      NewCacheVolumeWithFileHashKeys sampleDigest Context.background modRefusingRuntime.Client
        "go-build-" ⟨.ok [(["go.sum"], ⟨"", true⟩), (["go.mod"], ⟨"module x", true⟩)]⟩
        ["go.mod", "go.sum"] = .ok ⟨"go-build-go.mod=module x;go.sum=;"⟩ ∧
      NewCacheVolumeWithFileHashKeys sampleDigest Context.background modRefusingRuntime.Client
        "go-mod-" ⟨.ok [(["go.sum"], ⟨"", true⟩), (["go.mod"], ⟨"module x", true⟩)]⟩
        ["go.mod", "go.sum"] = .error (.volumeResolution "go-mod-go.mod=module x;go.sum=;") ∧
      WithMountedGoCache sampleDigest Context.background "" modRefusingRuntime goPathContainer
        = .error (.volumeResolution "go-mod-go.mod=module x;go.sum=;")) := by
  have h : WithMountedGoCache sampleDigest Context.background "" fullRuntime goPathContainer
      = .ok
        { env := [("PATH", "/usr/bin:/usr/local/go/bin"), ("GOCACHE", "/go/build-cache"),
            ("GOMODCACHE", "/go/mod-cache")]
          mounts := [("/go/build-cache", ⟨"go-build-go.mod=module x;go.sum=;"⟩),
            ("/go/mod-cache", ⟨"go-mod-go.mod=module x;go.sum=;"⟩)]
          secrets := []
          execs := [] } := by decide
  obtain ⟨cacheDir, inputs, hd, hb, hm, -⟩ :=
    (WithMountedGoCache_result sampleDigest Context.background "" fullRuntime
      goPathContainer).1 _ h
  have hp : getGoCacheDir Context.background partialRuntime "" ["go.mod", "go.sum"]
      = .error (.missingCacheFiles ["go.mod", "go.sum"]) := by decide
  have hu : getGoCacheDir Context.background unreadableRuntime "" ["go.mod", "go.sum"]
      = .ok ⟨.ok [(["go.sum"], ⟨"", false⟩), (["go.mod"], ⟨"module x", true⟩)]⟩ := by decide
  have hub : NewCacheVolumeWithFileHashKeys sampleDigest Context.background
      unreadableRuntime.Client "go-build-"
      ⟨.ok [(["go.sum"], ⟨"", false⟩), (["go.mod"], ⟨"module x", true⟩)]⟩
      ["go.mod", "go.sum"] = .error (.readError ["go.sum"]) := by decide
  have hr : getGoCacheDir Context.background modRefusingRuntime "" ["go.mod", "go.sum"]
      = .ok ⟨.ok [(["go.sum"], ⟨"", true⟩), (["go.mod"], ⟨"module x", true⟩)]⟩ := by decide
  have hrb : NewCacheVolumeWithFileHashKeys sampleDigest Context.background
      modRefusingRuntime.Client "go-build-"
      ⟨.ok [(["go.sum"], ⟨"", true⟩), (["go.mod"], ⟨"module x", true⟩)]⟩
      ["go.mod", "go.sum"] = .ok ⟨"go-build-go.mod=module x;go.sum=;"⟩ := by decide
  have hrm : NewCacheVolumeWithFileHashKeys sampleDigest Context.background
      modRefusingRuntime.Client "go-mod-"
      ⟨.ok [(["go.sum"], ⟨"", true⟩), (["go.mod"], ⟨"module x", true⟩)]⟩
      ["go.mod", "go.sum"] = .error (.volumeResolution "go-mod-go.mod=module x;go.sum=;") := by
    decide
  exact ⟨⟨h, cacheDir, inputs, hd, hb, hm⟩,
    ⟨hp, (WithMountedGoCache_result sampleDigest Context.background "" partialRuntime
      goPathContainer).2.1 _ hp⟩,
    ⟨hu, hub, (WithMountedGoCache_result sampleDigest Context.background "" unreadableRuntime
      goPathContainer).2.2.1 _ _ hu hub⟩,
    ⟨hr, hrb, hrm, (WithMountedGoCache_result sampleDigest Context.background ""
      modRefusingRuntime goPathContainer).2.2.2 _ _ _ hr hrb hrm⟩⟩

end Daggers
